import Mathlib

/-!
Verification development for the DM repository, a small retrieval-augmented
question-answering assistant.  The definitions below are a shallow embedding of
the repository's Python code:

* `src/DM/rag_store.py` — text chunking (`simple_overlap_chunk`), the document
  store (`upsert_document`, `ingest_text_chunks`, `ingest_pdf`) and vector
  search (`RagStore.search`);
* `src/DM/ollama.py` — the embedding client (`embed_texts`);
* `src/DM/streamlit_/app.py` — the answer orchestrator (`chunk_text`,
  `ask_ollama`, `process_single_request`).

External collaborators (the HTTP inference server, pgvector's cosine distance,
PDF text extraction, file hashing) are modelled as explicit function
parameters; Python strings are modelled as `List Char`, database rows as Lean
structures, and the store session as explicit state passing.
-/

namespace DM

/-! ### Python string helpers -/

/-- Characters treated as whitespace by Python's `str.split()` and
`str.strip()` (the code points for which `str.isspace()` is true). -/
def isPySpace (c : Char) : Bool :=
  decide (c.toNat = 32 ∨ (9 ≤ c.toNat ∧ c.toNat ≤ 13) ∨ (28 ≤ c.toNat ∧ c.toNat ≤ 31) ∨
    c.toNat = 133 ∨ c.toNat = 160 ∨ c.toNat = 5760 ∨ (8192 ≤ c.toNat ∧ c.toNat ≤ 8202) ∨
    c.toNat = 8232 ∨ c.toNat = 8233 ∨ c.toNat = 8239 ∨ c.toNat = 8287 ∨ c.toNat = 12288)

/-- Helper for `pySplitWS`: accumulates the current (reversed) word while
scanning the input, emitting it when a whitespace character or the end of the
input is reached.  Mirrors Python's `str.split()` with no separator: runs of
whitespace separate words, and leading/trailing whitespace yields no empty
words. -/
def pySplitWSAux : List Char → List Char → List (List Char)
  | acc, [] => if acc = [] then [] else [acc.reverse]
  | acc, c :: rest =>
    if isPySpace c then
      if acc = [] then pySplitWSAux [] rest else acc.reverse :: pySplitWSAux [] rest
    else pySplitWSAux (c :: acc) rest

/-- Python `text.split()` (no separator argument). -/
def pySplitWS (s : List Char) : List (List Char) :=
  pySplitWSAux [] s

/-- Python `s.strip()`: removes leading and trailing whitespace. -/
def pyStrip (s : List Char) : List Char :=
  ((s.dropWhile isPySpace).reverse.dropWhile isPySpace).reverse

/-! ### `simple_overlap_chunk` (src/DM/rag_store.py, lines 63-84) -/

/-- Control characters removed by the `replace` chain in
`simple_overlap_chunk`: `\x00`-`\x08`, `\x0b`, `\x0c`, `\x0e`-`\x1f`
(tab `\x09`, newline `\x0a` and carriage return `\x0d` are not removed there;
they are handled by the later replacements and whitespace normalization). -/
def isStrippedCtrl (c : Char) : Bool :=
  decide (c.toNat ≤ 8 ∨ c.toNat = 11 ∨ c.toNat = 12 ∨ (14 ≤ c.toNat ∧ c.toNat ≤ 31))

/-- Text normalization performed by `simple_overlap_chunk` before windowing:
remove the problematic control characters, replace `\r` by `\n` and `\t` by a
space, then `' '.join(text.split())` — collapse whitespace runs to single
spaces and strip the ends. -/
def normalizeText (s : List Char) : List Char :=
  let s1 := s.filter (fun c => !(isStrippedCtrl c))
  let s2 := s1.map (fun c => if c = '\r' then '\n' else if c = '\t' then ' ' else c)
  List.intercalate [' '] (pySplitWS s2)

/-- Fueled embedding of the `while start < length` window loop of
`simple_overlap_chunk`.  Each iteration takes `text[start:end]` with
`end = min (start + chunk_size) length`, breaks when `end` reaches the end of
the text, and otherwise continues from `end - overlap` (Python clamps a
negative start to 0; natural-number subtraction does the same).  `none` means
the fuel ran out, which models non-termination of the Python loop. -/
def chunkLoopFuel : Nat → List Char → Nat → Nat → Nat → Option (List (List Char))
  | 0, _, _, _, _ => none
  | fuel + 1, t, chunk_size, overlap, start =>
    if start < t.length then
      let e := min (start + chunk_size) t.length
      let chunk := (t.drop start).take (e - start)
      if e = t.length then some [chunk]
      else
        match chunkLoopFuel fuel t chunk_size overlap (e - overlap) with
        | some rest => some (chunk :: rest)
        | none => none
    else some []

/-- Embedding of `simple_overlap_chunk(text, chunk_size, overlap)`: empty
input short-circuits to `[]`; otherwise the text is normalized and windowed.
The fuel `length + 1` is proved sufficient whenever `overlap < chunk_size`
(see the termination theorem); `none` reports that the loop does not
terminate. -/
def simple_overlap_chunk (text : List Char) (chunk_size overlap : Nat) :
    Option (List (List Char)) :=
  if text = [] then some []
  else
    let t := normalizeText text
    chunkLoopFuel (t.length + 1) t chunk_size overlap 0

/-- Concatenation of chunks with the first `overlap` characters of every chunk
after the first removed — the reconstruction described by the coverage
property. -/
def reconstruct (overlap : Nat) : List (List Char) → List Char
  | [] => []
  | c :: rest => c ++ (rest.map (fun s => s.drop overlap)).flatten

/-! ### Data model (src/DM/rag_store.py, lines 20-47)

Rows of the `documents` and `chunks` tables, and the transient
`SearchResult`.  Row ids are assigned sequentially, modelling the integer
primary keys.  Embeddings are modelled as rational vectors. -/

structure Document where
  id : Nat
  title : String
  file_path : String
  content_hash : String
deriving DecidableEq

structure Chunk where
  id : Nat
  document_id : Nat
  chunk_index : Nat
  text : List Char
  token_count : Nat
  embedding : List ℚ
deriving DecidableEq

structure SearchResult where
  text : List Char
  document_title : String
  file_path : String
  distance : ℚ
deriving DecidableEq

/-- The persistent store visible through one database session: the two tables
plus the next fresh primary keys. -/
structure DMState where
  docs : List Document
  chunks : List Chunk
  next_doc_id : Nat
  next_chunk_id : Nat
deriving DecidableEq

/-! ### RagStore operations (src/DM/rag_store.py, lines 97-163) -/

/-- Embedding of `RagStore.get_document_by_path`: the unique document row with
the given `file_path` (the column carries a uniqueness constraint), or none. -/
def get_document_by_path (st : DMState) (file_path : String) : Option Document :=
  st.docs.find? (fun d => decide (d.file_path = file_path))

/-- Embedding of `RagStore.upsert_document`.  Returns the document row, the
`changed` flag, and the session state after the call:

* no row at `file_path` — insert a new document, `changed = true`;
* a row exists with a different `content_hash` — update the hash and delete
  every chunk of that document, `changed = true`;
* the stored hash matches — return the row unchanged, `changed = false`. -/
def upsert_document (st : DMState) (title file_path content_hash : String) :
    Document × Bool × DMState :=
  match get_document_by_path st file_path with
  | none =>
    let doc : Document :=
      { id := st.next_doc_id, title := title, file_path := file_path,
        content_hash := content_hash }
    (doc, true, { st with docs := st.docs ++ [doc], next_doc_id := st.next_doc_id + 1 })
  | some doc =>
    if doc.content_hash ≠ content_hash then
      let doc' := { doc with content_hash := content_hash }
      (doc', true,
        { st with
          docs := st.docs.map (fun d => if d.id = doc.id then doc' else d),
          chunks := st.chunks.filter (fun c => decide (c.document_id ≠ doc.id)) })
    else (doc, false, st)

/-- Embedding of `RagStore.ingest_text_chunks`: call the embedder on all
chunks at once, then insert one `Chunk` row per `(text, embedding)` pair of
`zip(chunks, embeddings)` — like Python's `zip`, `List.zip` silently truncates
to the shorter list — with its sequence index, text length as token count and
vector.  Returns the new state and the inserted row count. -/
def ingest_text_chunks (st : DMState) (document_id : Nat) (chunks : List (List Char))
    (embedder : List (List Char) → List (List ℚ)) : DMState × Nat :=
  let embeddings := embedder chunks
  let pairs := chunks.zip embeddings
  let newChunks := pairs.enum.map (fun p =>
    { id := st.next_chunk_id + p.1, document_id := document_id, chunk_index := p.1,
      text := p.2.1, token_count := p.2.1.length, embedding := p.2.2 : Chunk })
  ({ st with
      chunks := st.chunks ++ newChunks,
      next_chunk_id := st.next_chunk_id + pairs.length },
    pairs.length)

/-- Python `os.path.basename`: the final path component. -/
def basename (p : String) : String :=
  String.mk ((p.toList.reverse.takeWhile (fun c => decide (c ≠ '/'))).reverse)

/-- Embedding of `RagStore.ingest_pdf`.  The two external collaborators are
passed in explicitly: `content_hash` stands for `compute_file_hash(pdf_path)`
(the SHA-256 of the file bytes) and `full_text` for the text extracted from
the PDF by `PyPDF2` (concatenated pages, NUL bytes stripped — `normalizeText`
inside the chunker strips NUL bytes again, so `full_text` is passed raw).
Returns `none` when the chunking loop does not terminate, otherwise the state
after commit together with `(chunks_added, changed)`. -/
def ingest_pdf (st : DMState) (pdf_path content_hash : String) (full_text : List Char)
    (embedder : List (List Char) → List (List ℚ)) (chunk_size overlap : Nat) :
    Option (DMState × Nat × Bool) :=
  let title := basename pdf_path
  let r := upsert_document st title pdf_path content_hash
  let doc := r.1
  let changed := r.2.1
  let st1 := r.2.2
  let docChunks := st1.chunks.filter (fun c => decide (c.document_id = doc.id))
  if ¬ changed = true ∧ docChunks ≠ [] then some (st1, docChunks.length, false)
  else
    match simple_overlap_chunk full_text chunk_size overlap with
    | none => none
    | some chunks =>
      let r2 := ingest_text_chunks st1 doc.id chunks embedder
      some (r2.1, r2.2, true)

/-! ### Vector search (src/DM/rag_store.py, lines 165-193) -/

/-- Candidate rows of `RagStore.search`: the join of `chunks` with `documents`
on `document_id`, optionally restricted to documents whose `file_path` is in
`document_paths`.  Python's `if document_paths:` applies the filter only when
the argument is neither `None` nor empty. -/
def searchCandidates (st : DMState) (document_paths : Option (List String)) :
    List (Chunk × Document) :=
  let joined := st.chunks.filterMap (fun c =>
    (st.docs.find? (fun d => decide (d.id = c.document_id))).map (fun d => (c, d)))
  match document_paths with
  | some paths => if paths ≠ [] then
      joined.filter (fun cd => decide (cd.2.file_path ∈ paths)) else joined
  | none => joined

/-- Ordering of candidate rows by cosine distance to the query, as produced by
`ORDER BY embedding <=> query`.  The metric `cosd` models pgvector's
`cosine_distance`, an external collaborator. -/
def distLE (cosd : List ℚ → List ℚ → ℚ) (query : List ℚ) (a b : Chunk × Document) : Prop :=
  cosd a.1.embedding query ≤ cosd b.1.embedding query

instance (cosd : List ℚ → List ℚ → ℚ) (query : List ℚ) : DecidableRel (distLE cosd query) :=
  fun a b => inferInstanceAs (Decidable (_ ≤ _))

instance (cosd : List ℚ → List ℚ → ℚ) (query : List ℚ) :
    IsTotal (Chunk × Document) (distLE cosd query) :=
  ⟨fun a b => le_total _ _⟩

instance (cosd : List ℚ → List ℚ → ℚ) (query : List ℚ) :
    IsTrans (Chunk × Document) (distLE cosd query) :=
  ⟨fun _ _ _ hab hbc => le_trans hab hbc⟩

/-- One `SearchResult` row as built in the loop of `RagStore.search`; its
`distance` is the recomputed `cosine_distance` of the chunk's embedding to the
query. -/
def mkSearchResult (cosd : List ℚ → List ℚ → ℚ) (query : List ℚ)
    (cd : Chunk × Document) : SearchResult :=
  { text := cd.1.text, document_title := cd.2.title, file_path := cd.2.file_path,
    distance := cosd cd.1.embedding query }

/-- Embedding of `RagStore.search`: order the candidates by ascending cosine
distance (`ORDER BY ... LIMIT k` — ties broken arbitrarily by the database,
modelled here by a stable insertion sort), keep the first `k`, and build the
result rows. -/
def search (st : DMState) (cosd : List ℚ → List ℚ → ℚ) (query_embedding : List ℚ)
    (document_paths : Option (List String)) (k : Nat) : List SearchResult :=
  let cands := searchCandidates st document_paths
  let sorted := List.insertionSort (distLE cosd query_embedding) cands
  (sorted.take k).map (mkSearchResult cosd query_embedding)

/-! ### Embedding client (src/DM/ollama.py, lines 66-92) -/

/-- Decoded JSON body of one embeddings response: the `embedding` field, the
`embeddings` field, and the `embedding` field of the first element of `data`
(absent fields are `none`).  These are the three field names probed by
`embed_texts`. -/
structure EmbedResponse where
  embedding : Option (List ℚ)
  embeddings : Option (List ℚ)
  data_embedding : Option (List ℚ)

/-- Outcome of one HTTP POST to the embeddings endpoint, the external
collaborator of `embed_texts`: timeout, connection error, non-2xx status
(`raise_for_status`), or a decoded response body. -/
inductive NetResult where
  | timeout
  | connError
  | httpError (message : String)
  | ok (r : EmbedResponse)

/-- Python's `or` on optional embedding payloads: falls through when the left
operand is `None` or falsy (an empty list). -/
def pyOr (a b : Option (List ℚ)) : Option (List ℚ) :=
  match a with
  | some v => if v = [] then b else some v
  | none => b

/-- The field-probing expression of `embed_texts`:
`data.get("embedding") or data.get("embeddings") or
data.get("data", ...)[0].get("embedding")`. -/
def extractEmbedding (r : EmbedResponse) : Option (List ℚ) :=
  pyOr (pyOr r.embedding r.embeddings) r.data_embedding

/-- Result of one per-text call inside the loop of `embed_texts`: `some v`
when the POST succeeded and an embedding field was found (the code then
appends `v`), `none` when the call raised or no embedding was returned (the
code then raises, so the whole batch fails). -/
def embedCall (nr : NetResult) : Option (List ℚ) :=
  match nr with
  | .ok r => extractEmbedding r
  | _ => none

/-- The per-text loop of `embed_texts`: texts are submitted one at a time, in
order; `net i` is the network outcome for the `i`-th text.  Any exception
escapes the loop, modelled by `none`. -/
def embedGo (net : Nat → NetResult) : Nat → List String → Option (List (List ℚ))
  | _, [] => some []
  | i, _ :: ts =>
    match embedCall (net i) with
    | some v =>
      match embedGo net (i + 1) ts with
      | some vs => some (v :: vs)
      | none => none
    | none => none

/-- Embedding of `embed_texts(texts)`: empty input short-circuits to `[]`; an
exception anywhere in the loop makes the whole call return `[]` (the
`except` clauses); otherwise one vector per text, in order. -/
def embed_texts (net : Nat → NetResult) (texts : List String) : List (List ℚ) :=
  if texts = [] then []
  else
    match embedGo net 0 texts with
    | some vs => vs
    | none => []

/-! ### Answer orchestrator (src/DM/streamlit_/app.py, lines 18-59 and 165-235) -/

def MAX_CHUNK_SIZE : Nat := 20000

def MAX_TOTAL_CHUNKS : Nat := 5

/-- The characters-per-token estimate used by `chunk_text` (named
TOKEN ESTIMATE RATIO in the source). -/
def tokenEstimateRatio : Nat := 4

/-- Python `text.split('.')`: split on every dot, keeping empty pieces. -/
def splitOnDot : List Char → List (List Char)
  | [] => [[]]
  | c :: rest =>
    if c = '.' then [] :: splitOnDot rest
    else
      match splitOnDot rest with
      | [] => [[c]]
      | h :: t => (c :: h) :: t

/-- Python `'. '.join(current_chunk) + '.'` as used when a sentence group is
flushed in `chunk_text`. -/
def joinDotSpace (l : List (List Char)) : List Char :=
  List.intercalate ['.', ' '] l ++ ['.']

/-- One step of the greedy sentence-recombination loop of `chunk_text`.  The
accumulator is `(chunks, current_chunk, current_length)`. -/
def chunkStep (chunk_size : Nat) (acc : List (List Char) × List (List Char) × Nat)
    (sentence : List Char) : List (List Char) × List (List Char) × Nat :=
  if acc.2.2 + sentence.length > chunk_size then
    ((if acc.2.1 ≠ [] then acc.1 ++ [joinDotSpace acc.2.1] else acc.1),
      [sentence], sentence.length)
  else (acc.1, acc.2.1 ++ [sentence], acc.2.2 + sentence.length)

/-- The capping list comprehension of `chunk_text`:
`[''.join(chunks[i:i + g]) for i in range(0, len(chunks), g)]`.  The guard
`g = 0` is unreachable from `chunk_text` (there `g ≥ 2`); in Python a zero
step would raise. -/
def takeGroups (g : Nat) (l : List (List Char)) : List (List Char) :=
  if h : l = [] ∨ g = 0 then []
  else (l.take g).flatten :: takeGroups g (l.drop g)
termination_by l.length
decreasing_by
  push_neg at h
  have h1 : 0 < l.length := List.length_pos.mpr h.1
  have h2 : (l.drop g).length = l.length - g := List.length_drop g l
  omega

/-- Embedding of `chunk_text(text, chunk_size)` from the Streamlit app.  When
the estimated token count `len(text) / 4` is below the 100000 safety margin
the whole text is one chunk (float and floor division agree on this
comparison against an integer bound); otherwise the text is split into
stripped non-empty sentences at dots, the sentences are recombined greedily up
to `chunk_size`, and the chunk list is capped at `MAX_TOTAL_CHUNKS` by merging
adjacent chunks in groups of `ceil(len(chunks) / MAX_TOTAL_CHUNKS)`. -/
def chunk_text (text : List Char) (chunk_size : Nat) : List (List Char) :=
  if text.length / tokenEstimateRatio < 100000 then [text]
  else
    let sentences := ((splitOnDot text).map pyStrip).filter (fun s => decide (s ≠ []))
    let acc := sentences.foldl (chunkStep chunk_size) ([], [], 0)
    let chunks := if acc.2.1 ≠ [] then acc.1 ++ [joinDotSpace acc.2.1] else acc.1
    if chunks.length ≤ MAX_TOTAL_CHUNKS then chunks
    else takeGroups ((chunks.length + (MAX_TOTAL_CHUNKS - 1)) / MAX_TOTAL_CHUNKS) chunks

/-- Outcome of one HTTP POST to the generation endpoint, the external
collaborator of `ask_ollama` and `process_single_request`: a decoded
`response` string, or an exception (timeout, connection error, bad status,
missing field). -/
inductive GenOutcome where
  | ok (response : List Char)
  | failure (message : List Char)

/-- The prompt sent by `process_single_request`. -/
def singleShotPrompt (question : List Char) : List Char :=
  "Question: ".toList ++ question ++ "\nAnswer:".toList

/-- Embedding of `process_single_request(question)`: one generation call;
returns the trimmed response, or the error string on an exception.  The
result is paired with the list of prompts issued. -/
def process_single_request (gen : List Char → GenOutcome) (question : List Char) :
    List Char × List (List Char) :=
  match gen (singleShotPrompt question) with
  | .ok r => (pyStrip r, [singleShotPrompt question])
  | .failure e => ("Error querying Ollama: ".toList ++ e, [singleShotPrompt question])

/-- The per-chunk prompt of `ask_ollama`. -/
def chunkPrompt (question chunk : List Char) : List Char :=
  "Context:\n".toList ++ chunk ++ "\n\nQuestion: ".toList ++ question ++
    "\nAnswer based on this context:".toList

/-- The per-chunk loop of `ask_ollama`: each chunk is submitted in order; a
non-empty trimmed response is collected, an empty response is dropped, and an
exception skips the chunk and continues.  Returns the collected responses and
the prompts issued. -/
def processChunks (gen : List Char → GenOutcome) (question : List Char) :
    List (List Char) → List (List Char) × List (List Char)
  | [] => ([], [])
  | c :: cs =>
    let p := chunkPrompt question c
    match gen p with
    | .ok r =>
      let cr := pyStrip r
      let rest := processChunks gen question cs
      ((if cr ≠ [] then cr :: rest.1 else rest.1), p :: rest.2)
    | .failure _ =>
      let rest := processChunks gen question cs
      (rest.1, p :: rest.2)

/-- The final summarization prompt of `ask_ollama`, concatenating the chunk
answers as dash bullets. -/
def summaryPrompt (question : List Char) (responses : List (List Char)) : List Char :=
  "Based on the following information:\n\n".toList ++
    List.intercalate ['\n'] (responses.map (fun r => "- ".toList ++ r)) ++
    "\n\nProvide a concise answer to the question: ".toList ++ question

/-- The sentinel returned by `ask_ollama` when no chunk produced a response. -/
def sentinelAnswer : List Char :=
  "Could not process context. Please try a shorter document or rephrase your question.".toList

/-- Embedding of `ask_ollama(question, context)` from the Streamlit app.  An
empty context goes through `process_single_request`.  Otherwise the context is
chunked, each chunk is attempted, and — when at least one chunk produced a
response — a final summarization call is issued; with no responses the
sentinel is returned.  The result is paired with the list of prompts issued,
in order. -/
def ask_ollama (gen : List Char → GenOutcome) (question context : List Char) :
    List Char × List (List Char) :=
  if context = [] then process_single_request gen question
  else
    let chunks := chunk_text context MAX_CHUNK_SIZE
    let r := processChunks gen question chunks
    if r.1 ≠ [] then
      let sp := summaryPrompt question r.1
      match gen sp with
      | .ok resp => (pyStrip resp, r.2 ++ [sp])
      | .failure e => ("Error in final summary: ".toList ++ e, r.2 ++ [sp])
    else (sentinelAnswer, r.2)

/-- Predicate: the generation call for prompt `p` fails or yields an empty
trimmed response — exactly the situations in which the per-chunk loop of
`ask_ollama` collects nothing for that chunk. -/
def chunkCallFails (gen : List Char → GenOutcome) (p : List Char) : Prop :=
  match gen p with
  | .ok r => pyStrip r = []
  | .failure _ => True

/-! ### Concrete rows and states used by the witnesses -/

/-- Concrete state of an empty store. -/
def wsEmpty : DMState := ⟨[], [], 0, 0⟩

/-- Concrete document row: id 0, title "t", path "p", hash "h1". -/
def wsDoc : Document := ⟨0, "t", "p", "h1"⟩

/-- Concrete chunk row belonging to `wsDoc`. -/
def wsChunk : Chunk := ⟨0, 0, 0, ['x'], 1, []⟩

/-- Concrete store holding `wsDoc` with its single chunk `wsChunk`. -/
def wsOne : DMState := ⟨[wsDoc], [wsChunk], 1, 1⟩

/-- Concrete second document row under path "q". -/
def wsDoc2 : Document := ⟨1, "u", "q", "h9"⟩

/-- Concrete store with two documents and three embedded chunks, used by the
search witness. -/
def wsSearch : DMState :=
  ⟨[wsDoc, wsDoc2],
   [⟨0, 0, 0, ['x'], 1, [3]⟩, ⟨1, 0, 1, ['y'], 1, [1]⟩, ⟨2, 1, 0, ['z'], 1, [2]⟩],
   2, 3⟩

/-! ### Lemmas about the window loop -/

lemma chunkLoopFuel_isSome (t : List Char) (cs ov : Nat) (hov : ov < cs) :
    ∀ fuel start, t.length - start < fuel → (chunkLoopFuel fuel t cs ov start).isSome := by
  intro fuel
  induction fuel with
  | zero => intro start h; omega
  | succ n ih =>
    intro start h
    by_cases hs : start < t.length
    · simp only [chunkLoopFuel, if_pos hs]
      by_cases hend : min (start + cs) t.length = t.length
      · simp [hend]
      · rw [if_neg hend]
        have hrec := ih (min (start + cs) t.length - ov) (by omega)
        cases hcall : chunkLoopFuel n t cs ov (min (start + cs) t.length - ov) with
        | none => rw [hcall] at hrec; simp at hrec
        | some rest => simp
    · simp [chunkLoopFuel, hs]

lemma chunkLoopFuel_no_progress (t : List Char) (cs ov : Nat) (hov : cs ≤ ov) :
    ∀ fuel start, start + cs < t.length → chunkLoopFuel fuel t cs ov start = none := by
  intro fuel
  induction fuel with
  | zero => intro start _; rfl
  | succ n ih =>
    intro start h
    have hs : start < t.length := by omega
    simp only [chunkLoopFuel, if_pos hs]
    have hend : ¬ (min (start + cs) t.length = t.length) := by omega
    rw [if_neg hend, ih (min (start + cs) t.length - ov) (by omega)]

lemma chunkLoopFuel_flatten_drop (t : List Char) (cs ov : Nat) (hov : ov < cs) :
    ∀ fuel start chunks, start < t.length → start + ov ≤ t.length →
      chunkLoopFuel fuel t cs ov start = some chunks →
      (chunks.map (fun c => c.drop ov)).flatten = t.drop (start + ov) := by
  intro fuel
  induction fuel with
  | zero => intro start chunks _ _ h; exact absurd h (by simp [chunkLoopFuel])
  | succ n ih =>
    intro start chunks hs hole h
    simp only [chunkLoopFuel, if_pos hs] at h
    by_cases hend : min (start + cs) t.length = t.length
    · rw [if_pos hend] at h
      obtain rfl : [(t.drop start).take (min (start + cs) t.length - start)] = chunks :=
        Option.some.inj h
      have htake : (t.drop start).take (min (start + cs) t.length - start) = t.drop start := by
        apply List.take_of_length_le
        simp [hend]
      simp only [List.map_cons, List.map_nil, List.flatten_cons, List.flatten_nil,
        List.append_nil, htake, List.drop_drop]
    · rw [if_neg hend] at h
      have hlt : start + cs < t.length := by omega
      have hmin : min (start + cs) t.length = start + cs := by omega
      cases hcall : chunkLoopFuel n t cs ov (min (start + cs) t.length - ov) with
      | none => rw [hcall] at h; cases h
      | some rest =>
        rw [hcall] at h
        obtain rfl : (t.drop start).take (min (start + cs) t.length - start) :: rest = chunks :=
          Option.some.inj h
        have hih := ih (min (start + cs) t.length - ov) rest (by omega) (by omega) hcall
        have harg : min (start + cs) t.length - ov + ov = start + cs := by omega
        rw [harg] at hih
        simp only [List.map_cons, List.flatten_cons, hih]
        have hchunk : ((t.drop start).take (min (start + cs) t.length - start)).drop ov =
            (t.drop (start + ov)).take (cs - ov) := by
          rw [List.drop_take, List.drop_drop, hmin, Nat.add_sub_cancel_left]
        rw [hchunk]
        have hdrop : t.drop (start + cs) = (t.drop (start + ov)).drop (cs - ov) := by
          rw [List.drop_drop]
          congr 1
          omega
        rw [hdrop, List.take_append_drop]

lemma reconstruct_chunkLoopFuel (t : List Char) (cs ov : Nat) (hov : ov < cs)
    (fuel : Nat) (chunks : List (List Char))
    (h : chunkLoopFuel fuel t cs ov 0 = some chunks) :
    reconstruct ov chunks = t := by
  cases fuel with
  | zero => simp [chunkLoopFuel] at h
  | succ n =>
    by_cases hs : 0 < t.length
    · simp only [chunkLoopFuel, if_pos hs] at h
      by_cases hend : min (0 + cs) t.length = t.length
      · rw [if_pos hend] at h
        obtain rfl : [(t.drop 0).take (min (0 + cs) t.length - 0)] = chunks := Option.some.inj h
        simp only [reconstruct, List.drop_zero, Nat.sub_zero, hend, List.map_nil,
          List.flatten_nil, List.append_nil]
        exact List.take_of_length_le (Nat.le_refl _)
      · rw [if_neg hend] at h
        have hlt : 0 + cs < t.length := by omega
        cases hcall : chunkLoopFuel n t cs ov (min (0 + cs) t.length - ov) with
        | none => rw [hcall] at h; cases h
        | some rest =>
          rw [hcall] at h
          obtain rfl : (t.drop 0).take (min (0 + cs) t.length - 0) :: rest = chunks :=
            Option.some.inj h
          have hih := chunkLoopFuel_flatten_drop t cs ov hov n (min (0 + cs) t.length - ov) rest
            (by omega) (by omega) hcall
          have harg : min (0 + cs) t.length - ov + ov = cs := by omega
          rw [harg] at hih
          simp only [reconstruct, hih, List.drop_zero, Nat.sub_zero]
          have hmin : min (0 + cs) t.length = cs := by omega
          rw [hmin, List.take_append_drop]
    · have ht : t = [] := List.eq_nil_of_length_eq_zero (by omega)
      subst ht
      simp only [chunkLoopFuel] at h
      obtain rfl : [] = chunks := by simpa using h
      rfl

/-! ### Claim C3 -/

/-- C3: chunking has total coverage.  For every non-empty input text and every
`chunk_size > overlap ≥ 0`, the window loop of `simple_overlap_chunk`
terminates, and concatenating the chunks it returns — dropping the first
`overlap` characters of every chunk after the first — reconstructs the
normalized input (control characters stripped, whitespace runs collapsed to
single spaces) exactly. -/
theorem C3_chunk_total_coverage (text : List Char) (chunk_size overlap : Nat)
    (hne : text ≠ []) (hov : overlap < chunk_size) :
    ∃ chunks, simple_overlap_chunk text chunk_size overlap = some chunks ∧
      reconstruct overlap chunks = normalizeText text := by
  have hsome := chunkLoopFuel_isSome (normalizeText text) chunk_size overlap hov
    ((normalizeText text).length + 1) 0 (by omega)
  cases hcall : chunkLoopFuel ((normalizeText text).length + 1) (normalizeText text)
      chunk_size overlap 0 with
  | none => rw [hcall] at hsome; simp at hsome
  | some chunks =>
    refine ⟨chunks, ?_, ?_⟩
    · simp only [simple_overlap_chunk, if_neg hne]
      exact hcall
    · exact reconstruct_chunkLoopFuel _ _ _ hov _ _ hcall

/-- Witness for C3 at a concrete input: text `"ab cd"`, chunk size 3,
overlap 1. -/
theorem C3_chunk_total_coverage_witness :
    ∃ chunks, simple_overlap_chunk ['a', 'b', ' ', 'c', 'd'] 3 1 = some chunks ∧
      reconstruct 1 chunks = normalizeText ['a', 'b', ' ', 'c', 'd'] :=
  C3_chunk_total_coverage ['a', 'b', ' ', 'c', 'd'] 3 1 (by decide) (by decide)

/-! ### Claim C10 -/

/-- C10: the window loop of `simple_overlap_chunk` terminates for every input
whenever `chunk_size > overlap ≥ 0` (the start position strictly advances each
iteration), and the precondition is essential: with `overlap ≥ chunk_size` the
start position does not advance, and on any text extending past the first
window the loop runs forever (no amount of fuel makes it finish). -/
theorem C10_loop_termination (chunk_size overlap : Nat) (text : List Char) :
    (overlap < chunk_size → (simple_overlap_chunk text chunk_size overlap).isSome = true) ∧
    (chunk_size ≤ overlap → chunk_size < (normalizeText text).length →
      ∀ fuel, chunkLoopFuel fuel (normalizeText text) chunk_size overlap 0 = none) := by
  constructor
  · intro hov
    by_cases hne : text = []
    · simp [simple_overlap_chunk, hne]
    · have hsome := chunkLoopFuel_isSome (normalizeText text) chunk_size overlap hov
        ((normalizeText text).length + 1) 0 (by omega)
      simpa only [simple_overlap_chunk, if_neg hne] using hsome
  · intro hle hlt fuel
    exact chunkLoopFuel_no_progress _ _ _ hle fuel 0 (by omega)

/-- Witness for C10 at concrete inputs: with text `"abc"`, chunk size 2 and
overlap 1 the chunker succeeds, while chunk size 1 and overlap 1 make the loop
spin without progress (fuel 9 shown). -/
theorem C10_loop_termination_witness :
    (simple_overlap_chunk ['a', 'b', 'c'] 2 1).isSome = true ∧
    chunkLoopFuel 9 (normalizeText ['a', 'b', 'c']) 1 1 0 = none :=
  ⟨(C10_loop_termination 2 1 ['a', 'b', 'c']).1 (by decide),
   (C10_loop_termination 1 1 ['a', 'b', 'c']).2 (by decide) (by decide) 9⟩

/-! ### Claim C1 -/

/-- C1: `upsert_document` satisfies the three-case contract.  If no document
row exists at `file_path`, a new document with the given title, path and hash
is inserted and `changed = true`; if a row exists with a different stored
`content_hash`, the hash is updated, every chunk of that document is deleted,
and `changed = true`; if the stored hash matches, nothing is mutated and
`changed = false`. -/
theorem C1_upsert_document_contract (st : DMState) (title file_path content_hash : String) :
    (get_document_by_path st file_path = none →
      (upsert_document st title file_path content_hash).2.1 = true ∧
      (upsert_document st title file_path content_hash).1.title = title ∧
      (upsert_document st title file_path content_hash).1.file_path = file_path ∧
      (upsert_document st title file_path content_hash).1.content_hash = content_hash ∧
      (upsert_document st title file_path content_hash).2.2.docs =
        st.docs ++ [(upsert_document st title file_path content_hash).1] ∧
      (upsert_document st title file_path content_hash).2.2.chunks = st.chunks) ∧
    (∀ d, get_document_by_path st file_path = some d → d.content_hash ≠ content_hash →
      (upsert_document st title file_path content_hash).2.1 = true ∧
      (upsert_document st title file_path content_hash).1 =
        { d with content_hash := content_hash } ∧
      (upsert_document st title file_path content_hash).2.2.chunks =
        st.chunks.filter (fun c => decide (c.document_id ≠ d.id)) ∧
      (∀ c ∈ (upsert_document st title file_path content_hash).2.2.chunks,
        c.document_id ≠ d.id) ∧
      (upsert_document st title file_path content_hash).2.2.docs =
        st.docs.map (fun x =>
          if x.id = d.id then { d with content_hash := content_hash } else x)) ∧
    (∀ d, get_document_by_path st file_path = some d → d.content_hash = content_hash →
      (upsert_document st title file_path content_hash).2.1 = false ∧
      (upsert_document st title file_path content_hash).2.2 = st) := by
  refine ⟨?_, ?_, ?_⟩
  · intro h
    simp [upsert_document, h]
  · intro d hd hh
    simp only [upsert_document, hd]
    rw [if_pos hh]
    refine ⟨rfl, rfl, rfl, ?_, rfl⟩
    intro c hc
    simp only [List.mem_filter, decide_eq_true_eq] at hc
    exact hc.2
  · intro d hd hh
    simp only [upsert_document, hd]
    rw [if_neg (by simp [hh])]
    exact ⟨rfl, rfl⟩

/-- Witness for C1: the insert case on an empty store, and the replace and
no-op cases on a store holding one document with one chunk. -/
theorem C1_upsert_document_contract_witness :
    (upsert_document wsEmpty "t" "p" "h1").2.1 = true ∧
    (upsert_document wsOne "t" "p" "h2").2.1 = true ∧
    (upsert_document wsOne "t" "p" "h2").2.2.chunks = [] ∧
    (upsert_document wsOne "t" "p" "h1").2.1 = false := by
  refine ⟨((C1_upsert_document_contract wsEmpty "t" "p" "h1").1 (by decide)).1, ?_, ?_, ?_⟩
  · exact ((C1_upsert_document_contract wsOne "t" "p" "h2").2.1 wsDoc
      (by decide) (by decide)).1
  · rw [((C1_upsert_document_contract wsOne "t" "p" "h2").2.1 wsDoc
      (by decide) (by decide)).2.2.1]
    decide
  · exact ((C1_upsert_document_contract wsOne "t" "p" "h1").2.2 wsDoc
      (by decide) (by decide)).1

/-! ### Claim C2 -/

/-- C2: ingestion is idempotent on unchanged content.  When the file's hash
equals the stored hash and the document already has at least one chunk,
`ingest_pdf` returns the prior chunk count with `changed = false` and leaves
the store exactly as it was: no chunk row is created and no row is mutated. -/
theorem C2_ingest_idempotent (st : DMState) (pdf_path content_hash : String)
    (full_text : List Char) (embedder : List (List Char) → List (List ℚ))
    (chunk_size overlap : Nat) (d : Document)
    (hd : get_document_by_path st pdf_path = some d)
    (hh : d.content_hash = content_hash)
    (hc : st.chunks.filter (fun c => decide (c.document_id = d.id)) ≠ []) :
    ingest_pdf st pdf_path content_hash full_text embedder chunk_size overlap =
      some (st, (st.chunks.filter (fun c => decide (c.document_id = d.id))).length,
        false) := by
  have hup : upsert_document st (basename pdf_path) pdf_path content_hash = (d, false, st) := by
    simp only [upsert_document, hd]
    rw [if_neg (by simp [hh])]
  simp only [ingest_pdf, hup]
  rw [if_pos ⟨by simp, hc⟩]

/-- Witness for C2: re-ingesting the unchanged document of `wsOne` returns its
prior chunk count 1, `changed = false`, and the untouched store. -/
theorem C2_ingest_idempotent_witness :
    ingest_pdf wsOne "p" "h1" ['a'] (fun _ => []) 800 120 = some (wsOne, 1, false) :=
  (C2_ingest_idempotent wsOne "p" "h1" ['a'] (fun _ => []) 800 120 wsDoc
    (by decide) (by decide) (by decide)).trans (by decide)

/-! ### Claim C4 -/

/-- C4: evaluation of the code at the failing input of the atomicity claim.
The store `wsOne` holds a document with hash "h1" and one chunk; re-ingesting
it with changed content (hash "h2", extracted text "ab") and an embedder that
fails (returns no vectors for the non-empty chunk list, as `embed_texts` does
on a network failure) still commits: the document's `content_hash` is updated
to "h2", the old chunk is deleted, zero new chunks are stored, and the call
returns `(0, changed = true)` as if it had succeeded — the claimed atomic
failure does not happen in the code. -/
theorem C4_ingest_not_atomic :
    ingest_pdf wsOne "p" "h2" ['a', 'b'] (fun _ => []) 800 120 =
      some (⟨[⟨0, "t", "p", "h2"⟩], [], 1, 1⟩, 0, true) ∧
    wsOne.chunks ≠ [] := by
  constructor
  · decide
  · decide

/-! ### Claim C5 -/

lemma embedGo_some (net : Nat → NetResult) :
    ∀ (texts : List String) (i : Nat) (vs : List (List ℚ)),
      embedGo net i texts = some vs →
      vs.length = texts.length ∧
        ∀ j, (h : j < vs.length) → embedCall (net (i + j)) = some (vs.get ⟨j, h⟩) := by
  intro texts
  induction texts with
  | nil =>
    intro i vs h
    obtain rfl : [] = vs := Option.some.inj (by simpa [embedGo] using h)
    exact ⟨rfl, by intro j hj; simp at hj⟩
  | cons t ts ih =>
    intro i vs h
    simp only [embedGo] at h
    cases hcall : embedCall (net i) with
    | none => rw [hcall] at h; cases h
    | some v =>
      rw [hcall] at h
      cases hrec : embedGo net (i + 1) ts with
      | none => rw [hrec] at h; cases h
      | some vs' =>
        rw [hrec] at h
        obtain rfl : v :: vs' = vs := Option.some.inj h
        obtain ⟨hlen, hget⟩ := ih (i + 1) vs' hrec
        refine ⟨by simpa using hlen, ?_⟩
        intro j hj
        cases j with
        | zero => simpa using hcall
        | succ j' =>
          have hj' : j' < vs'.length := by simpa using hj
          have := hget j' hj'
          rw [show i + (j' + 1) = i + 1 + j' by omega]
          simpa using this

lemma embedGo_fail (net : Nat → NetResult) :
    ∀ (texts : List String) (i j : Nat), j < texts.length →
      embedCall (net (i + j)) = none → embedGo net i texts = none := by
  intro texts
  induction texts with
  | nil => intro i j hj; simp at hj
  | cons t ts ih =>
    intro i j hj hfail
    simp only [embedGo]
    cases j with
    | zero =>
      simp only [Nat.add_zero] at hfail
      rw [hfail]
    | succ j' =>
      cases hcall : embedCall (net i) with
      | none => rfl
      | some v =>
        have : embedGo net (i + 1) ts = none := by
          apply ih (i + 1) j' (by simpa using hj)
          rw [show i + 1 + j' = i + (j' + 1) by omega]
          exact hfail
        rw [this]

/-- C5: the embedding client is all-or-nothing.  `embed_texts` returns either
one vector per input text, in the input's order (the `j`-th vector is the
embedding decoded from the successful call for the `j`-th text), or — as soon
as any call in the batch fails (timeout, connection refused, bad status,
missing or malformed embedding field) — the empty list; it never returns a
partial batch. -/
theorem C5_embed_all_or_nothing (net : Nat → NetResult) (texts : List String) :
    (embed_texts net texts = [] ∨
      ((embed_texts net texts).length = texts.length ∧
        ∀ j, (h : j < (embed_texts net texts).length) →
          ∃ r, net j = NetResult.ok r ∧
            extractEmbedding r = some ((embed_texts net texts).get ⟨j, h⟩))) ∧
    (∀ j, j < texts.length → embedCall (net j) = none → embed_texts net texts = []) := by
  by_cases hne : texts = []
  · subst hne
    exact ⟨Or.inl (by simp [embed_texts]), by intro j hj; simp at hj⟩
  · cases hgo : embedGo net 0 texts with
    | none =>
      have hres : embed_texts net texts = [] := by simp [embed_texts, hne, hgo]
      exact ⟨Or.inl hres, fun _ _ _ => hres⟩
    | some vs =>
      have hres : embed_texts net texts = vs := by simp [embed_texts, hne, hgo]
      obtain ⟨hlen, hget⟩ := embedGo_some net texts 0 vs hgo
      constructor
      · right
        rw [hres]
        refine ⟨hlen, ?_⟩
        intro j hj
        have hcall := hget j hj
        simp only [Nat.zero_add] at hcall
        cases hnr : net j with
        | ok r =>
          refine ⟨r, rfl, ?_⟩
          rw [hnr] at hcall
          simpa [embedCall] using hcall
        | timeout => rw [hnr] at hcall; simp [embedCall] at hcall
        | connError => rw [hnr] at hcall; simp [embedCall] at hcall
        | httpError m => rw [hnr] at hcall; simp [embedCall] at hcall
      · intro j hj hfail
        have : embedGo net 0 texts = none := embedGo_fail net texts 0 j hj (by simpa using hfail)
        rw [this] at hgo
        cases hgo

/-- Witness for C5: a timeout on the single text of the batch makes
`embed_texts` return the empty list. -/
theorem C5_embed_all_or_nothing_witness :
    embed_texts (fun _ => NetResult.timeout) ["a"] = [] :=
  (C5_embed_all_or_nothing (fun _ => NetResult.timeout) ["a"]).2 0 (by decide) rfl

/-! ### Claim C6 -/

/-- C6: `search` returns at most `k` results, sorted in ascending cosine
distance from the query vector; when a non-empty `document_paths` filter is
given, every returned result belongs to a document whose path is in the
filter; and every returned result's distance is less than or equal to the
distance of any candidate chunk of the filter set that was not returned. -/
theorem C6_search_contract (st : DMState) (cosd : List ℚ → List ℚ → ℚ)
    (query : List ℚ) (document_paths : Option (List String)) (k : Nat) :
    (search st cosd query document_paths k).length ≤ k ∧
    List.Sorted (fun a b : SearchResult => a.distance ≤ b.distance)
      (search st cosd query document_paths k) ∧
    (∀ paths, document_paths = some paths → paths ≠ [] →
      ∀ res ∈ search st cosd query document_paths k, res.file_path ∈ paths) ∧
    (∀ res ∈ search st cosd query document_paths k,
      ∀ cd ∈ searchCandidates st document_paths,
        mkSearchResult cosd query cd ∉ search st cosd query document_paths k →
        res.distance ≤ cosd cd.1.embedding query) := by
  have hsorted : List.Sorted (distLE cosd query)
      (List.insertionSort (distLE cosd query) (searchCandidates st document_paths)) :=
    List.sorted_insertionSort _ _
  have hperm := List.perm_insertionSort (distLE cosd query) (searchCandidates st document_paths)
  refine ⟨?_, ?_, ?_, ?_⟩
  · simp only [search, List.length_map, List.length_take]
    omega
  · have htake := List.Pairwise.sublist
      (List.take_sublist k (List.insertionSort (distLE cosd query)
        (searchCandidates st document_paths))) hsorted
    simp only [search]
    exact List.Pairwise.map _ (fun a b h => h) htake
  · intro paths hdp hpne res hres
    subst hdp
    simp only [search] at hres
    obtain ⟨cd, hcd, rfl⟩ := List.mem_map.mp hres
    have h1 : cd ∈ List.insertionSort (distLE cosd query)
        (searchCandidates st (some paths)) :=
      (List.take_sublist k _).subset hcd
    have h2 : cd ∈ searchCandidates st (some paths) := hperm.subset h1
    simp only [searchCandidates, if_pos hpne] at h2
    have := (List.mem_filter.mp h2).2
    simpa [mkSearchResult] using of_decide_eq_true this
  · intro res hres cd hcd hnot
    simp only [search] at hres hnot
    obtain ⟨a, ha, rfl⟩ := List.mem_map.mp hres
    have hmem : cd ∈ List.insertionSort (distLE cosd query)
        (searchCandidates st document_paths) := hperm.symm.subset hcd
    rw [← List.take_append_drop k (List.insertionSort (distLE cosd query)
      (searchCandidates st document_paths))] at hmem
    rcases List.mem_append.mp hmem with hmem | hmem
    · exact absurd (List.mem_map_of_mem _ hmem) hnot
    · rw [← List.take_append_drop k (List.insertionSort (distLE cosd query)
        (searchCandidates st document_paths))] at hsorted
      have hrel := (List.pairwise_append.mp hsorted).2.2 a ha cd hmem
      exact hrel

/-- Witness for C6 at a concrete store: two documents, three chunks, and the
metric taking the head of the stored vector as distance.  The search is scoped
to path "p" and asks for at most 2 of the 2 matching chunks. -/
theorem C6_search_contract_witness :
    (search wsSearch (fun v _ => v.headD 0) [] (some ["p"]) 2).length ≤ 2 ∧
    (∀ res ∈ search wsSearch (fun v _ => v.headD 0) [] (some ["p"]) 2,
      res.file_path ∈ ["p"]) := by
  refine ⟨(C6_search_contract wsSearch (fun v _ => v.headD 0) [] (some ["p"]) 2).1, ?_⟩
  exact (C6_search_contract wsSearch (fun v _ => v.headD 0) [] (some ["p"]) 2).2.2.1
    ["p"] rfl (by decide)

/-! ### Claim C7 -/

/-- C7 counterexample: with the non-empty context `"c"` — far below the
token-estimate threshold — and a generation service that always answers
`"y"`, `ask_ollama` issues two generation calls (the per-chunk call plus the
final summarization call), not exactly one as the claim states. -/
theorem C7_counterexample_two_calls :
    (['c'] : List Char) ≠ [] ∧
    (['c'] : List Char).length / tokenEstimateRatio < 100000 ∧
    (ask_ollama (fun _ => GenOutcome.ok ['y']) ['q'] ['c']).2.length = 2 ∧
    ¬ (ask_ollama (fun _ => GenOutcome.ok ['y']) ['q'] ['c']).2.length = 1 := by
  decide

/-- C7 amended: `answer(question, "")` issues exactly one generation call,
with prompt `"Question: ...\nAnswer:"`, and returns its trimmed response on
success.  For a non-empty context below the token-estimate threshold the
whole context is one chunk and the first generation call embeds the full
context, but the total number of generation calls is one only when that chunk
call fails or yields an empty trimmed response (the sentinel path), and two
otherwise (the chunk call plus the final summarization call) — not exactly
one. -/
theorem C7_answer_call_counts (gen : List Char → GenOutcome) (question context : List Char)
    (hne : context ≠ []) (hsmall : context.length / tokenEstimateRatio < 100000) :
    (ask_ollama gen question []).2 = [singleShotPrompt question] ∧
    (∀ r, gen (singleShotPrompt question) = GenOutcome.ok r →
      (ask_ollama gen question []).1 = pyStrip r) ∧
    chunk_text context MAX_CHUNK_SIZE = [context] ∧
    (ask_ollama gen question context).2.head? = some (chunkPrompt question context) ∧
    (chunkCallFails gen (chunkPrompt question context) →
      (ask_ollama gen question context).2.length = 1) ∧
    (¬ chunkCallFails gen (chunkPrompt question context) →
      (ask_ollama gen question context).2.length = 2) := by
  have hchunks : chunk_text context MAX_CHUNK_SIZE = [context] := by
    simp only [chunk_text, if_pos hsmall]
  have hsingle : ∀ g : List Char → GenOutcome,
      (process_single_request g question).2 = [singleShotPrompt question] := by
    intro g
    cases h : g (singleShotPrompt question) <;> simp [process_single_request, h]
  refine ⟨?_, ?_, hchunks, ?_, ?_, ?_⟩
  · simp only [ask_ollama, if_pos rfl]
    exact hsingle gen
  · intro r hr
    simp [ask_ollama, process_single_request, hr]
  · simp only [ask_ollama, if_neg hne, hchunks]
    cases hg : gen (chunkPrompt question context) with
    | ok r =>
      by_cases hcr : pyStrip r = []
      · simp [processChunks, hg, hcr]
      · cases hs : gen (summaryPrompt question [pyStrip r]) with
        | ok resp => simp [processChunks, hg, hcr, hs]
        | failure e => simp [processChunks, hg, hcr, hs]
    | failure e =>
      simp [processChunks, hg]
  · intro hfail
    simp only [ask_ollama, if_neg hne, hchunks]
    cases hg : gen (chunkPrompt question context) with
    | ok r =>
      have hcr : pyStrip r = [] := by simpa [chunkCallFails, hg] using hfail
      simp [processChunks, hg, hcr]
    | failure e =>
      simp [processChunks, hg]
  · intro hok
    simp only [ask_ollama, if_neg hne, hchunks]
    cases hg : gen (chunkPrompt question context) with
    | ok r =>
      have hcr : ¬ pyStrip r = [] := by simpa [chunkCallFails, hg] using hok
      cases hs : gen (summaryPrompt question [pyStrip r]) with
      | ok resp => simp [processChunks, hg, hcr, hs]
      | failure e => simp [processChunks, hg, hcr, hs]
    | failure e =>
      simp [chunkCallFails, hg] at hok

/-- Witness for C7 at concrete inputs: question `"q"`, context `"c"`.  With a
service always answering `"y"` the chunk call succeeds and exactly two calls
are issued; with a service that always raises the chunk call fails and
exactly one call is issued. -/
theorem C7_answer_call_counts_witness :
    (ask_ollama (fun _ => GenOutcome.ok ['y']) ['q'] []).2 = [singleShotPrompt ['q']] ∧
    (ask_ollama (fun _ => GenOutcome.ok ['y']) ['q'] ['c']).2.length = 2 ∧
    (ask_ollama (fun _ => GenOutcome.failure ['e']) ['q'] ['c']).2.length = 1 := by
  refine ⟨(C7_answer_call_counts (fun _ => GenOutcome.ok ['y']) ['q'] ['c']
      (by decide) (by decide)).1, ?_, ?_⟩
  · exact (C7_answer_call_counts (fun _ => GenOutcome.ok ['y']) ['q'] ['c']
      (by decide) (by decide)).2.2.2.2.2 (by show ¬ (pyStrip ['y'] = []); decide)
  · exact (C7_answer_call_counts (fun _ => GenOutcome.failure ['e']) ['q'] ['c']
      (by decide) (by decide)).2.2.2.2.1 True.intro

/-! ### Claim C8 -/

lemma takeGroups_length_le (g : Nat) (hg : 1 ≤ g) :
    ∀ (m : Nat) (l : List (List Char)), l.length ≤ m * g → (takeGroups g l).length ≤ m := by
  intro m
  induction m with
  | zero =>
    intro l hl
    have h0 : l = [] := List.eq_nil_of_length_eq_zero (by omega)
    subst h0
    rw [takeGroups]
    simp
  | succ n ih =>
    intro l hl
    rw [Nat.succ_mul] at hl
    by_cases hl0 : l = []
    · subst hl0; rw [takeGroups]; simp
    · rw [takeGroups, dif_neg (by push_neg; exact ⟨hl0, by omega⟩)]
      simp only [List.length_cons]
      have hrec := ih (l.drop g) (by rw [List.length_drop]; omega)
      omega

lemma cap_length_le (chunks : List (List Char)) :
    (if chunks.length ≤ MAX_TOTAL_CHUNKS then chunks
      else takeGroups ((chunks.length + (MAX_TOTAL_CHUNKS - 1)) / MAX_TOTAL_CHUNKS)
        chunks).length ≤ MAX_TOTAL_CHUNKS := by
  split
  · assumption
  · rename_i hgt
    apply takeGroups_length_le
    · simp only [MAX_TOTAL_CHUNKS] at hgt ⊢
      omega
    · simp only [MAX_TOTAL_CHUNKS] at hgt ⊢
      omega

/-- C8: `chunk_text` never returns more than `MAX_TOTAL_CHUNKS = 5` chunks —
when sentence-wise splitting would produce more, adjacent chunks are merged in
groups so that the returned list has length at most `MAX_TOTAL_CHUNKS`. -/
theorem C8_chunk_text_cap (text : List Char) (chunk_size : Nat) :
    (chunk_text text chunk_size).length ≤ MAX_TOTAL_CHUNKS := by
  rw [chunk_text]
  split
  · simp [MAX_TOTAL_CHUNKS]
  · exact cap_length_le _

/-! ### Claim C9 -/

lemma processChunks_trace (gen : List Char → GenOutcome) (question : List Char) :
    ∀ chunks, (processChunks gen question chunks).2 = chunks.map (chunkPrompt question) := by
  intro chunks
  induction chunks with
  | nil => rfl
  | cons c cs ih =>
    simp only [processChunks]
    cases hg : gen (chunkPrompt question c) <;> simp [ih]

lemma processChunks_all_fail (gen : List Char → GenOutcome) (question : List Char) :
    ∀ chunks, (∀ c ∈ chunks, chunkCallFails gen (chunkPrompt question c)) →
      (processChunks gen question chunks).1 = [] := by
  intro chunks
  induction chunks with
  | nil => intro _; rfl
  | cons c cs ih =>
    intro hall
    have hc := hall c (List.mem_cons_self c cs)
    have hrest := ih (fun x hx => hall x (List.mem_cons_of_mem c hx))
    simp only [processChunks]
    cases hg : gen (chunkPrompt question c) with
    | ok r =>
      simp only [chunkCallFails, hg] at hc
      simp [hc, hrest]
    | failure e => simp [hrest]

/-- C9: for every question and non-empty context, the per-chunk loop of
`ask_ollama` attempts every chunk — the prompts issued always start with the
per-chunk prompt of each chunk in order, so a failure on one chunk does not
abort the loop — and when every per-chunk call fails or yields an empty
response, the answer is the distinct "could not process" sentinel string,
which is not the empty string. -/
theorem C9_sentinel_and_continue (gen : List Char → GenOutcome) (question context : List Char)
    (hne : context ≠ []) :
    (∃ rest, (ask_ollama gen question context).2 =
      (chunk_text context MAX_CHUNK_SIZE).map (chunkPrompt question) ++ rest) ∧
    ((∀ c ∈ chunk_text context MAX_CHUNK_SIZE, chunkCallFails gen (chunkPrompt question c)) →
      (ask_ollama gen question context).1 = sentinelAnswer ∧
      (ask_ollama gen question context).2 =
        (chunk_text context MAX_CHUNK_SIZE).map (chunkPrompt question)) ∧
    sentinelAnswer ≠ [] := by
  have htrace := processChunks_trace gen question (chunk_text context MAX_CHUNK_SIZE)
  refine ⟨?_, ?_, by decide⟩
  · simp only [ask_ollama, if_neg hne]
    by_cases hr : (processChunks gen question (chunk_text context MAX_CHUNK_SIZE)).1 ≠ []
    · rw [if_pos hr]
      cases hs : gen (summaryPrompt question
          (processChunks gen question (chunk_text context MAX_CHUNK_SIZE)).1) with
      | ok resp => exact ⟨_, by rw [htrace]⟩
      | failure e => exact ⟨_, by rw [htrace]⟩
    · rw [if_neg hr]
      exact ⟨[], by rw [htrace, List.append_nil]⟩
  · intro hall
    have h1 : (processChunks gen question (chunk_text context MAX_CHUNK_SIZE)).1 = [] :=
      processChunks_all_fail gen question _ hall
    simp only [ask_ollama, if_neg hne, h1]
    simp [htrace]

/-- Witness for C9: context `"c"` with a service that always raises — the
answer is the sentinel and the single chunk was attempted. -/
theorem C9_sentinel_and_continue_witness :
    (ask_ollama (fun _ => GenOutcome.failure ['e']) ['q'] ['c']).1 = sentinelAnswer ∧
    (ask_ollama (fun _ => GenOutcome.failure ['e']) ['q'] ['c']).2 =
      (chunk_text ['c'] MAX_CHUNK_SIZE).map (chunkPrompt ['q']) :=
  (C9_sentinel_and_continue (fun _ => GenOutcome.failure ['e']) ['q'] ['c']
    (by decide)).2.1 (fun _ _ => True.intro)

end DM
